import Mathlib

/-! Verification of the adp command-line tool (cmd/process.go and
cmd/download.go) against its design specification.  Go strings and
filesystem paths are modelled as lists of characters, the filesystem as a
list of existing paths, and the external capabilities (browser script
evaluation, HTTP transport, text extraction) as explicit function
parameters.  Every definition cites the Go code it translates. -/

/-- A Go string or filesystem path, modelled as a list of characters. -/
abbrev Str := List Char

/-- Character class `[A-Za-zäöüÄÖÜß]` of the month-name capture groups in
`rueckrechnungRegex` and `abrechnungsmonatRegex` (process.go lines 70, 73). -/
def reLetters (c : Char) : Bool :=
  ('A' ≤ c && c ≤ 'Z') || ('a' ≤ c && c ≤ 'z') ||
  c == 'ä' || c == 'ö' || c == 'ü' || c == 'Ä' || c == 'Ö' || c == 'Ü' || c == 'ß'

/-- RE2 whitespace class `\s`, which is `[\t\n\f\r ]` in Go regexps. -/
def reSpace (c : Char) : Bool :=
  c == '\t' || c == '\n' || c == '\x0c' || c == '\r' || c == ' '

/-- Matches a literal at the head of the text, returning the remainder. -/
def matchLit : List Char → List Char → Option (List Char)
  | [], cs => some cs
  | _ :: _, [] => none
  | p :: ps, c :: cs => if p == c then matchLit ps cs else none

/-- Decides whether `needle` occurs as a contiguous substring of the text,
as `MatchString` of a literal Go regexp (process.go lines 64, 67) and as
`strings.Contains` (download.go line 110). -/
def hasSub (needle : List Char) : List Char → Bool
  | [] => needle.isEmpty
  | c :: rest => (matchLit needle (c :: rest)).isSome || hasSub needle rest

/-- Reads `(\d{4})`: exactly four decimal digits at the head of the text. -/
def take4Digits : List Char → Option Str
  | a :: b :: c :: d :: _ =>
    if a.isDigit && b.isDigit && c.isDigit && d.isDigit then some [a, b, c, d] else none
  | _ => none

/-- The literal part of `taxCertRegex` up to its capture group
(process.go line 61), including the trailing space. -/
def taxCertLabel : Str := "Ausdruck der elektronischen Lohnsteuerbescheinigung für ".toList

/-- Leftmost match of `taxCertRegex` (process.go line 61): the label literal
followed by a four-digit year; returns the captured year.  `none` models
`len(matches) <= 1`, i.e. no match anywhere in the text. -/
def findTaxCertYear : List Char → Option Str
  | [] => none
  | c :: rest =>
    match matchLit taxCertLabel (c :: rest) with
    | some after =>
      match take4Digits after with
      | some ds => some ds
      | none => findTaxCertYear rest
    | none => findTaxCertYear rest

/-- The tail `:?\s*([A-Za-zäöüÄÖÜß]+)\s+(\d{4})` shared by
`rueckrechnungRegex` and `abrechnungsmonatRegex` (process.go lines 70, 73):
an optional colon, optional whitespace, a month word, whitespace, and a
four-digit year.  The three character classes involved are pairwise
disjoint, so RE2 greedy matching here is exactly maximal munch and never
needs to backtrack into a shorter quantifier match. -/
def matchMonthYearAfter (cs : List Char) : Option (Str × Str) :=
  let cs1 := match cs with
    | ':' :: r => r
    | r => r
  let cs2 := cs1.dropWhile reSpace
  let word := cs2.takeWhile reLetters
  let cs3 := cs2.dropWhile reLetters
  if word.isEmpty then none
  else
    let sp := cs3.takeWhile reSpace
    let cs4 := cs3.dropWhile reSpace
    if sp.isEmpty then none
    else
      match take4Digits cs4 with
      | some ds => some (word, ds)
      | none => none

/-- Leftmost match of a label literal followed by `matchMonthYearAfter`,
modelling `FindStringSubmatch` of `rueckrechnungRegex` and
`abrechnungsmonatRegex`; returns the captured (month, year). -/
def findLabelMonthYear (label : Str) : List Char → Option (Str × Str)
  | [] => none
  | c :: rest =>
    match matchLit label (c :: rest) with
    | some after =>
      match matchMonthYearAfter after with
      | some r => some r
      | none => findLabelMonthYear label rest
    | none => findLabelMonthYear label rest

/-- Literal of `socialInsuranceRegex` (process.go line 64). -/
def socialInsuranceLabel : Str := "Meldebescheinigung zur Sozialversicherung".toList

/-- Literal of `payslipRegex` (process.go line 67). -/
def payslipLabel : Str := "Verdienstabrechnung".toList

/-- Label literal of `rueckrechnungRegex` (process.go line 70). -/
def rueckrechnungLabel : Str := "Rückrechnung".toList

/-- Label literal of `abrechnungsmonatRegex` (process.go line 73). -/
def abrechnungsmonatLabel : Str := "Abrechnungsmonat".toList

/-- Document categories of the classification engine (spec section 3). -/
inductive Category
  | TaxCertificate
  | SocialInsuranceCertificate
  | Payslip
  | Unrecognized
  deriving DecidableEq

/-- Category plus the proposed new filename; `proposedName = none` means the
file is left unrenamed (with a warning for the recognised-but-unextractable
cases, silently for Unrecognized). -/
structure ClassificationResult where
  category : Category
  proposedName : Option Str
  deriving DecidableEq

/-- The classification chain of `processPDFs` (process.go lines 90-193): an
exclusive if/elseif chain trying the tax-certificate rule, then the
social-insurance rule, then the payslip rule (with its Rückrechnung
sub-case that uses the correction's own month and year), else Unrecognized. -/
def classify (text : List Char) : ClassificationResult :=
  match findTaxCertYear text with
  | some year =>
    ⟨.TaxCertificate, some ("Lohnsteuerbescheinigung - ".toList ++ year ++ ".pdf".toList)⟩
  | none =>
    if hasSub socialInsuranceLabel text then
      match findLabelMonthYear abrechnungsmonatLabel text with
      | some (month, year) =>
        ⟨.SocialInsuranceCertificate,
          some ("Meldebescheinigung zur Sozialversicherung - ".toList ++ month
            ++ " ".toList ++ year ++ ".pdf".toList)⟩
      | none => ⟨.SocialInsuranceCertificate, none⟩
    else if hasSub payslipLabel text then
      match findLabelMonthYear abrechnungsmonatLabel text with
      | some (month, year) =>
        match findLabelMonthYear rueckrechnungLabel text with
        | some (rueckMonth, rueckYear) =>
          ⟨.Payslip,
            some ("Verdienstabrechnung - ".toList ++ rueckMonth
              ++ " ".toList ++ rueckYear ++ " - Rückrechnung.pdf".toList)⟩
        | none =>
          ⟨.Payslip,
            some ("Verdienstabrechnung - ".toList ++ month
              ++ " ".toList ++ year ++ ".pdf".toList)⟩
      | none => ⟨.Payslip, none⟩
    else ⟨.Unrecognized, none⟩

/-- Character the `filepath.Ext` scan may step over: Go's `Ext` walks the
path backwards and stops at the first dot or path separator. -/
def extKeep (c : Char) : Bool := !(c == '.') && !(c == '/')

/-- Go `filepath.Ext` as used by `ensureUniqueFilename` (process.go line
208): the suffix of the path starting at the last dot of its final
slash-separated element, or empty when that element has no dot. -/
def pathExt (p : Str) : Str :=
  let rest := p.reverse.dropWhile extKeep
  if rest.head? = some '.' then '.' :: (p.reverse.takeWhile extKeep).reverse
  else []

/-- The path with the literal "_2" inserted before its extension: the value
`fmt.Sprintf("%s_2%s", basePath, ext)` built at process.go lines 208-210. -/
def withSuffix2 (p : Str) : Str :=
  p.take (p.length - (pathExt p).length) ++ '_' :: '2' :: pathExt p

/-- `ensureUniqueFilename` (process.go lines 201-211).  The filesystem probe
`os.Stat` / `os.IsNotExist` is abstracted as the oracle `fileExists`; note
the function consults the oracle on `path` only, never on the suffixed
name it may return. -/
def ensureUniqueFilename (fileExists : Str → Bool) (path : Str) : Str :=
  if fileExists path = false then path
  else
    let ext := pathExt path
    let basePath := path.take (path.length - ext.length)
    basePath ++ '_' :: '2' :: ext

/-- Effect of `os.Rename old new` on a directory listing: `old` disappears
and `new` is present, silently replacing any file already at `new`. -/
def renameStep (dir : List Str) (old new : Str) : List Str :=
  let d := dir.erase old
  if new ∈ d then d else new :: d

/-- The proposed filename for one file, or `none` when it is left unrenamed
(text extraction failed, unrecognised type, or a recognised type whose
month/year could not be extracted). -/
def proposalOf (txt : Option Str) : Option Str :=
  match txt with
  | none => none
  | some t => (classify t).proposedName

/-- The per-file loop of `processPDFs` (process.go lines 76-194) over its
globbed file list, each file paired with its extracted text (`none` when
`extractTextFromPDF` fails).  Returns the final directory listing, the
logged rename decisions (old name, new name) — the pair logged both by the
dry-run "Would rename" line and the live "Renamed file successfully"
line — and whether some executed rename replaced an existing file. -/
def processPass (dryRun : Bool) : List Str → List (Str × Option Str) → List Str × List (Str × Str) × Bool
  | dir, [] => (dir, [], false)
  | dir, (name, txt) :: rest =>
    match proposalOf txt with
    | none => processPass dryRun dir rest
    | some p =>
      let newName := ensureUniqueFilename (fun q => decide (q ∈ dir)) p
      let overwrite := !dryRun && decide (newName ∈ dir.erase name)
      let dir2 := if dryRun then dir else renameStep dir name newName
      let (dfin, ds, ow) := processPass dryRun dir2 rest
      (dfin, (name, newName) :: ds, overwrite || ow)

/-- The proposed names of a batch of files, in file order. -/
def proposalsOf (files : List (Str × Option Str)) : List Str :=
  files.filterMap (fun f => proposalOf f.2)

/-- The rename decisions a run logs when every proposal resolves without a
collision: each classified file is renamed to exactly its proposed name. -/
def plainDecisions (files : List (Str × Option Str)) : List (Str × Str) :=
  files.filterMap (fun f => (proposalOf f.2).map (fun p => (f.1, p)))

/-- A cookie as handled by session bridging: the three fields copied from
each browser cookie into the HTTP client at download.go lines 361-365. -/
structure Cookie where
  name : String
  value : String
  domain : String
  deriving DecidableEq

/-- The fixed allow-list of session-identity cookie names
(download.go lines 351-356). -/
def essentialCookieNames : List String :=
  ["BIGipServer_DE1_world-v2", "SERVERSESSIONID", "JSESSIONIDSSO", "EMEASMSESSION"]

/-- The cookie-bridging loop (download.go lines 358-371): keep, in order,
exactly the browser cookies whose name is in the allow-list — the inner
loop's `break` adds each cookie at most once — copying name, value and
domain into the fresh client's jar. -/
def bridgedCookies (allCookies : List Cookie) : List Cookie :=
  allCookies.filter (fun c => essentialCookieNames.contains c.name)

/-- Link resolution in the download loop (download.go lines 384-387): a
link is fetched as-is exactly when it starts with "https"
(`strings.HasPrefix`); any other link gets the portal URL prepended. -/
def resolveLink (siteURL link : Str) : Str :=
  if "https".toList.isPrefixOf link then link else siteURL ++ link

/-- Follows the spec's words, for comparison with `resolveLink` only: an
absolute URL is one carrying its own scheme. -/
def specAbsoluteLink (link : Str) : Bool :=
  "http://".toList.isPrefixOf link || "https://".toList.isPrefixOf link

/-- A failed download: the transport error from `client.Get` or the non-OK
status rejected by the `resp.StatusCode != http.StatusOK` check
(download.go lines 488-497).  The download loop wraps either in the message
"failed to download <link>: <cause>" naming the resolved link. -/
inductive DownloadErr
  | transport (msg : Str)
  | badStatus (code : Nat)
  deriving DecidableEq

/-- `downloadFile` (download.go lines 478-507) acting on a directory
listing: `os.Create` first puts (or truncates) the destination file, and
only then the GET response `resp` — transport error or HTTP status —
decides the outcome; 200 is `http.StatusOK`.  The created file stays in
the listing in every case. -/
def downloadFile (fs : List Str) (resp : Except Str Nat) (dest : Str) :
    List Str × Option DownloadErr :=
  let fs2 := if dest ∈ fs then fs else dest :: fs
  match resp with
  | .error e => (fs2, some (.transport e))
  | .ok code => if code = 200 then (fs2, none) else (fs2, some (.badStatus code))

/-- The ordinal destination filename `fmt.Sprintf("adp_%d.pdf", i+1)`
(download.go line 392). -/
def ordinalName (i : Nat) : Str := "adp_".toList ++ (toString i).toList ++ ".pdf".toList

/-- The bulk-download loop (download.go lines 383-398): resolve each link,
download it to the next ordinal path in `destDir`, and abort the whole
batch on the first failure, reporting the resolved link with its cause.
Returns the resolved links downloaded so far, the directory listing, and
the error if any; `fetch` abstracts `client.Get` and `i` is the loop
index. -/
def downloadAllLinks (fetch : Str → Except Str Nat) (siteURL destDir : Str) :
    List Str → Nat → List Str → List Str × List Str × Option (Str × DownloadErr)
  | [], _, fs => ([], fs, none)
  | l :: rest, i, fs =>
    let link := resolveLink siteURL l
    let dest := destDir ++ '/' :: ordinalName (i + 1)
    let (fs2, r) := downloadFile fs (fetch link) dest
    match r with
    | none =>
      let (ds, fs3, e) := downloadAllLinks fetch siteURL destDir rest (i + 1) fs2
      (link :: ds, fs3, e)
    | some err => ([], fs2, some (link, err))

/-- Outcome of a readiness wait.  `evalError` is the outcome that would
represent rethrowing a script-evaluation failure; the polling loop never
produces it. -/
inductive WaitResult
  | success
  | timedOut
  | evalError (msg : Str)
  deriving DecidableEq

/-- The substring marking a deadline-exceeded evaluation error
(download.go lines 110 and 164). -/
def deadlineMsg : Str := "context deadline exceeded".toList

/-- The polling loop shared by `waitForElement` (download.go lines 80-127)
and `waitForText` (lines 130-181): at elapsed time `t` (milliseconds), stop
with `timedOut` once the deadline has passed (the `timeoutCtx.Done` check);
otherwise evaluate the condition in the page — `evalCond` abstracts the
`chromedp.Evaluate` call, element visibility in the one function, a regexp
match on the page text in the other.  An evaluation error containing
"context deadline exceeded" becomes `timedOut`; any other evaluation error
is swallowed and the loop retries after the fixed 500ms sleep, exactly as
when the condition does not hold yet. -/
def waitFor (evalCond : Nat → Except Str Bool) (timeout t : Nat) : WaitResult :=
  if h : timeout ≤ t then .timedOut
  else
    match evalCond t with
    | .error e =>
      if hasSub deadlineMsg e then .timedOut else waitFor evalCond timeout (t + 500)
    | .ok true => .success
    | .ok false => waitFor evalCond timeout (t + 500)
termination_by timeout - t
decreasing_by
  all_goals omega

/-- C1: every text matching the tax-certificate pattern with year `y` is
classified as TaxCertificate with proposed name
"Lohnsteuerbescheinigung - y.pdf"; no assumption is made on co-occurring
payslip or social-insurance phrases, because the tax-certificate rule is
the first branch of the exclusive if/elseif chain. -/
theorem classify_taxCertificate (t : List Char) (y : Str)
    (h : findTaxCertYear t = some y) :
    classify t =
      ⟨Category.TaxCertificate,
        some ("Lohnsteuerbescheinigung - ".toList ++ y ++ ".pdf".toList)⟩ := by
  unfold classify
  rw [h]

/-- Witness for C1: the end-to-end scenario-1 text, extended with both the
payslip phrase and the social-insurance phrase, is still classified as a
tax certificate named "Lohnsteuerbescheinigung - 2022.pdf". -/
theorem classify_taxCertificate_witness :
    classify ("Ausdruck der elektronischen Lohnsteuerbescheinigung für 2022 Verdienstabrechnung Meldebescheinigung zur Sozialversicherung".toList) =
      ⟨Category.TaxCertificate, some "Lohnsteuerbescheinigung - 2022.pdf".toList⟩ := by
  have h := classify_taxCertificate
    ("Ausdruck der elektronischen Lohnsteuerbescheinigung für 2022 Verdienstabrechnung Meldebescheinigung zur Sozialversicherung".toList)
    "2022".toList (by decide)
  rw [h]
  decide

/-- C2: a text reaching the payslip branch (no tax-certificate match, no
social-insurance phrase, payslip phrase present) with extractable billing
month `m` and year `y` is named after the correction marker's own month
`m2` and year `y2` with the Rückrechnung suffix whenever the marker is
present — even when the billing month and year differ — and after the
billing month and year otherwise. -/
theorem classify_payslip_rueckrechnung (t : List Char) (m y m2 y2 : Str)
    (htax : findTaxCertYear t = none)
    (hsi : hasSub socialInsuranceLabel t = false)
    (hpay : hasSub payslipLabel t = true)
    (habm : findLabelMonthYear abrechnungsmonatLabel t = some (m, y)) :
    (findLabelMonthYear rueckrechnungLabel t = some (m2, y2) →
      classify t = ⟨Category.Payslip,
        some ("Verdienstabrechnung - ".toList ++ m2 ++ " ".toList ++ y2
          ++ " - Rückrechnung.pdf".toList)⟩)
    ∧ (findLabelMonthYear rueckrechnungLabel t = none →
      classify t = ⟨Category.Payslip,
        some ("Verdienstabrechnung - ".toList ++ m ++ " ".toList ++ y
          ++ ".pdf".toList)⟩) := by
  constructor <;> intro hr <;> simp [classify, htax, hsi, hpay, habm, hr]

/-- Witness for C2: the end-to-end scenario-3 text, whose billing month is
Januar 2024 but whose correction marker says Dezember 2023, is proposed as
"Verdienstabrechnung - Dezember 2023 - Rückrechnung.pdf". -/
theorem classify_payslip_rueckrechnung_witness :
    classify ("Verdienstabrechnung\nAbrechnungsmonat: Januar 2024\nRückrechnung: Dezember 2023".toList) =
      ⟨Category.Payslip, some "Verdienstabrechnung - Dezember 2023 - Rückrechnung.pdf".toList⟩ := by
  have h := (classify_payslip_rueckrechnung
    ("Verdienstabrechnung\nAbrechnungsmonat: Januar 2024\nRückrechnung: Dezember 2023".toList)
    "Januar".toList "2024".toList "Dezember".toList "2023".toList
    (by decide) (by decide) (by decide) (by decide)).1 (by decide)
  rw [h]
  decide

/-- C9: a text reaching the payslip branch whose correction marker matches
but whose billing-month pattern does not is classified as a payslip with no
proposed name, so the processing pass leaves the directory unchanged and
records no rename decision (the file keeps its name and a warning is
logged): the correction branch is unreachable without a billing-month
match, so the correction's own month and year are never used alone. -/
theorem classify_payslip_missing_month (t : List Char) (m2 y2 : Str)
    (htax : findTaxCertYear t = none)
    (hsi : hasSub socialInsuranceLabel t = false)
    (hpay : hasSub payslipLabel t = true)
    (habm : findLabelMonthYear abrechnungsmonatLabel t = none)
    (hr : findLabelMonthYear rueckrechnungLabel t = some (m2, y2)) :
    classify t = ⟨Category.Payslip, none⟩
    ∧ ∀ (dryRun : Bool) (dir : List Str) (name : Str),
        processPass dryRun dir [(name, some t)] = (dir, [], false) := by
  have hc : classify t = ⟨Category.Payslip, none⟩ := by
    simp [classify, htax, hsi, hpay, habm]
  refine ⟨hc, ?_⟩
  intro dryRun dir name
  simp [processPass, proposalOf, hc]

/-- Witness for C9: a payslip text with a correction marker but no
billing-month line is left without a proposed name. -/
theorem classify_payslip_missing_month_witness :
    classify ("Verdienstabrechnung Rückrechnung: Dezember 2023".toList) =
      ⟨Category.Payslip, none⟩ :=
  (classify_payslip_missing_month
    ("Verdienstabrechnung Rückrechnung: Dezember 2023".toList)
    "Dezember".toList "2023".toList
    (by decide) (by decide) (by decide) (by decide) (by decide)).1

/-- Helper: a list whose suffix is `e` equals `take (length - length e)`
followed by `e`. -/
theorem take_sub_append {α : Type} (p e : List α) (h : ∃ base, p = base ++ e) :
    p.take (p.length - e.length) ++ e = p := by
  obtain ⟨base, hb⟩ := h
  subst hb
  have hlen : (base ++ e).length - e.length = base.length := by
    simp [List.length_append]
  rw [hlen, List.take_left]

/-- Helper: `pathExt p` is a suffix of `p`. -/
theorem pathExt_suffix (p : Str) : ∃ base, p = base ++ pathExt p := by
  have hsplit : p.reverse.takeWhile extKeep ++ p.reverse.dropWhile extKeep = p.reverse :=
    List.takeWhile_append_dropWhile extKeep p.reverse
  by_cases h : (p.reverse.dropWhile extKeep).head? = some '.'
  · have hext : pathExt p = '.' :: (p.reverse.takeWhile extKeep).reverse := by
      unfold pathExt
      rw [if_pos h]
    obtain ⟨d2, hd2⟩ : ∃ d2, p.reverse.dropWhile extKeep = '.' :: d2 := by
      cases hcase : p.reverse.dropWhile extKeep with
      | nil => rw [hcase] at h; simp at h
      | cons a b =>
        rw [hcase] at h
        simp only [List.head?_cons, Option.some.injEq] at h
        exact ⟨b, by rw [h]⟩
    refine ⟨d2.reverse, ?_⟩
    rw [hext]
    have h2 := congrArg List.reverse hsplit
    rw [hd2] at h2
    simpa [List.reverse_append] using h2.symm
  · have hext : pathExt p = [] := by
      unfold pathExt
      rw [if_neg h]
    exact ⟨p, by simp [hext]⟩

/-- Helper: a path splits into its base and its extension. -/
theorem pathExt_split (p : Str) :
    p.take (p.length - (pathExt p).length) ++ pathExt p = p :=
  take_sub_append p (pathExt p) (pathExt_suffix p)

/-- C3: `ensureUniqueFilename` returns the proposed path unchanged when no
file exists there; when a file exists it returns the path with the literal
"_2" inserted before the extension (the path itself decomposing as that
base followed by that extension); and it consults the filesystem on the
proposed path only, so its answer is independent of the rest of the
filesystem — in particular, when the "_2"-suffixed form also pre-exists it
still returns that (taken) suffixed path. -/
theorem ensureUniqueFilename_spec (ex : Str → Bool) (p : Str) :
    (ex p = false → ensureUniqueFilename ex p = p)
    ∧ (ex p = true →
        ensureUniqueFilename ex p =
          p.take (p.length - (pathExt p).length) ++ '_' :: '2' :: pathExt p
        ∧ p.take (p.length - (pathExt p).length) ++ pathExt p = p)
    ∧ (∀ ex2 : Str → Bool, ex2 p = ex p →
        ensureUniqueFilename ex2 p = ensureUniqueFilename ex p)
    ∧ (ex p = true → ex (withSuffix2 p) = true →
        ensureUniqueFilename ex p = withSuffix2 p
        ∧ ex (ensureUniqueFilename ex p) = true) := by
  refine ⟨?_, ?_, ?_, ?_⟩
  · intro h
    simp [ensureUniqueFilename, h]
  · intro h
    exact ⟨by simp [ensureUniqueFilename, h], pathExt_split p⟩
  · intro ex2 h
    unfold ensureUniqueFilename
    rw [h]
  · intro h h2
    have heq : ensureUniqueFilename ex p = withSuffix2 p := by
      simp [ensureUniqueFilename, withSuffix2, h]
    exact ⟨heq, by rw [heq]; exact h2⟩

/-- Witness for C3: the end-to-end scenario-4 path, already present in the
destination, is allocated its "_2"-suffixed form. -/
theorem ensureUniqueFilename_spec_witness :
    ensureUniqueFilename
      (fun q => q == "Verdienstabrechnung - Januar 2024.pdf".toList)
      "Verdienstabrechnung - Januar 2024.pdf".toList =
      "Verdienstabrechnung - Januar 2024_2.pdf".toList := by
  have h := ((ensureUniqueFilename_spec
    (fun q => q == "Verdienstabrechnung - Januar 2024.pdf".toList)
    "Verdienstabrechnung - Januar 2024.pdf".toList).2.1 (by decide)).1
  rw [h]
  decide

/-- Helper: a dry run never changes the directory listing. -/
theorem processPass_dry_dir :
    ∀ (files : List (Str × Option Str)) (dir : List Str),
      (processPass true dir files).1 = dir := by
  intro files
  induction files with
  | nil => intro dir; simp [processPass]
  | cons f rest ih =>
    intro dir
    obtain ⟨name, txt⟩ := f
    cases hp : proposalOf txt with
    | none => simp [processPass, hp, ih dir]
    | some p =>
      have hrec := ih dir
      rcases hpp : processPass true dir rest with ⟨d2, ds2, ow2⟩
      rw [hpp] at hrec
      simp only [processPass, hp, if_true, hpp]
      simpa using hrec

/-- Helper: when no proposed name is already present in the directory, a
dry run logs exactly the plain decisions. -/
theorem processPass_dry_fresh :
    ∀ (files : List (Str × Option Str)) (dir : List Str),
      (∀ q ∈ proposalsOf files, q ∉ dir) →
      (processPass true dir files).2.1 = plainDecisions files := by
  intro files
  induction files with
  | nil => intro dir _; simp [processPass, plainDecisions]
  | cons f rest ih =>
    intro dir h
    obtain ⟨name, txt⟩ := f
    cases hp : proposalOf txt with
    | none =>
      have hcons : proposalsOf ((name, txt) :: rest) = proposalsOf rest := by
        simp [proposalsOf, hp]
      rw [hcons] at h
      have hplain : plainDecisions ((name, txt) :: rest) = plainDecisions rest := by
        simp [plainDecisions, hp]
      rw [hplain]
      simp only [processPass, hp]
      exact ih dir h
    | some p =>
      have hcons : proposalsOf ((name, txt) :: rest) = p :: proposalsOf rest := by
        simp [proposalsOf, hp]
      rw [hcons] at h
      have hplain : plainDecisions ((name, txt) :: rest) = (name, p) :: plainDecisions rest := by
        simp [plainDecisions, hp]
      have hpd : p ∉ dir := h p (by simp)
      have hrest : ∀ q ∈ proposalsOf rest, q ∉ dir := fun q hq => h q (by simp [hq])
      have hnew : ensureUniqueFilename (fun q => decide (q ∈ dir)) p = p := by
        simp [ensureUniqueFilename, hpd]
      have hrec := ih dir hrest
      rcases hpp : processPass true dir rest with ⟨d2, ds2, ow2⟩
      rw [hpp] at hrec
      simp only at hrec
      rw [hplain]
      simp only [processPass, hp, hnew, if_true, hpp]
      simpa using hrec

/-- Helper: when the proposed names are pairwise distinct and absent from
the directory, a live run logs exactly the plain decisions and performs no
overwriting rename. -/
theorem processPass_live_fresh :
    ∀ (files : List (Str × Option Str)) (dir : List Str),
      (∀ q ∈ proposalsOf files, q ∉ dir) →
      (proposalsOf files).Nodup →
      (processPass false dir files).2.1 = plainDecisions files
      ∧ (processPass false dir files).2.2 = false := by
  intro files
  induction files with
  | nil => intro dir _ _; simp [processPass, plainDecisions]
  | cons f rest ih =>
    intro dir h hn
    obtain ⟨name, txt⟩ := f
    cases hp : proposalOf txt with
    | none =>
      have hcons : proposalsOf ((name, txt) :: rest) = proposalsOf rest := by
        simp [proposalsOf, hp]
      rw [hcons] at h hn
      have hplain : plainDecisions ((name, txt) :: rest) = plainDecisions rest := by
        simp [plainDecisions, hp]
      rw [hplain]
      simp only [processPass, hp]
      exact ih dir h hn
    | some p =>
      have hcons : proposalsOf ((name, txt) :: rest) = p :: proposalsOf rest := by
        simp [proposalsOf, hp]
      rw [hcons] at h hn
      have hplain : plainDecisions ((name, txt) :: rest) = (name, p) :: plainDecisions rest := by
        simp [plainDecisions, hp]
      have hpd : p ∉ dir := h p (by simp)
      have hrest : ∀ q ∈ proposalsOf rest, q ∉ dir := fun q hq => h q (by simp [hq])
      have hpn : p ∉ proposalsOf rest := (List.nodup_cons.mp hn).1
      have hnr : (proposalsOf rest).Nodup := (List.nodup_cons.mp hn).2
      have hnew : ensureUniqueFilename (fun q => decide (q ∈ dir)) p = p := by
        simp [ensureUniqueFilename, hpd]
      have hpe : p ∉ dir.erase name := fun hmem => hpd (List.mem_of_mem_erase hmem)
      have hover : decide (p ∈ dir.erase name) = false := by
        simpa using hpe
      have hdir2 : renameStep dir name p = p :: dir.erase name := by
        simp [renameStep, hpe]
      have hcond2 : ∀ q ∈ proposalsOf rest, q ∉ (p :: dir.erase name) := by
        intro q hq hmem
        rcases List.mem_cons.mp hmem with h1 | h2
        · exact hpn (h1 ▸ hq)
        · exact hrest q hq (List.mem_of_mem_erase h2)
      have hrec := ih (p :: dir.erase name) hcond2 hnr
      rcases hpp : processPass false (p :: dir.erase name) rest with ⟨d2, ds2, ow2⟩
      rw [hpp] at hrec
      simp only at hrec
      rw [hplain]
      simp [processPass, hp, hnew, hover, hdir2, hpp, hrec.1, hrec.2]

/-- Counterexample to C4 as stated: with three files all classified to the
same proposed name "Lohnsteuerbescheinigung - 2022.pdf", the first rename
takes that name, the second takes the "_2"-suffixed name, and the third is
again allocated the "_2"-suffixed name — `ensureUniqueFilename` never
checks whether the suffixed name is itself taken — so the third rename
replaces an existing file: the pass reports an executed rename whose
target was already present in the directory. -/
theorem processPass_overwrites_on_triple_collision :
    (processPass false
      ["adp_1.pdf".toList, "adp_2.pdf".toList, "adp_3.pdf".toList]
      [("adp_1.pdf".toList,
          some "Ausdruck der elektronischen Lohnsteuerbescheinigung für 2022".toList),
       ("adp_2.pdf".toList,
          some "Ausdruck der elektronischen Lohnsteuerbescheinigung für 2022".toList),
       ("adp_3.pdf".toList,
          some "Ausdruck der elektronischen Lohnsteuerbescheinigung für 2022".toList)]).2.2
      = true := by
  decide

/-- C4 amended: the pass performs no overwriting rename whenever the
classified files' proposed names are pairwise distinct and absent from the
destination directory; and in general the allocator hands out an
already-occupied path only when both the proposed path and its
"_2"-suffixed form are already occupied — the situation created from the
third file proposing the same name on — and then it returns the suffixed
path. -/
theorem processPass_no_overwrite_amended
    (dir : List Str) (files : List (Str × Option Str)) (ex : Str → Bool) (p : Str) :
    ((∀ q ∈ proposalsOf files, q ∉ dir) → (proposalsOf files).Nodup →
      (processPass false dir files).2.2 = false)
    ∧ (ex (ensureUniqueFilename ex p) = true →
        ex p = true
        ∧ ensureUniqueFilename ex p = withSuffix2 p
        ∧ ex (withSuffix2 p) = true) := by
  constructor
  · intro h hn
    exact (processPass_live_fresh files dir h hn).2
  · intro h
    by_cases hex : ex p = true
    · have heq : ensureUniqueFilename ex p = withSuffix2 p := by
        simp [ensureUniqueFilename, withSuffix2, hex]
      exact ⟨hex, heq, by rw [← heq]; exact h⟩
    · have hfalse : ex p = false := by
        cases hxp : ex p
        · rfl
        · exact absurd hxp hex
      have heq : ensureUniqueFilename ex p = p := by
        simp [ensureUniqueFilename, hfalse]
      rw [heq] at h
      exact absurd h hex

/-- Witness for the amended C4: processing one tax certificate into a
directory that holds only the source file performs no overwriting rename. -/
theorem processPass_no_overwrite_amended_witness :
    (processPass false ["adp_1.pdf".toList]
      [("adp_1.pdf".toList,
          some "Ausdruck der elektronischen Lohnsteuerbescheinigung für 2022".toList)]).2.2
      = false := by
  have h := (processPass_no_overwrite_amended
    ["adp_1.pdf".toList]
    [("adp_1.pdf".toList,
        some "Ausdruck der elektronischen Lohnsteuerbescheinigung für 2022".toList)]
    (fun _ => false) []).1 (by decide) (by decide)
  exact h

/-- Counterexample to C8 as stated: over a directory holding two source
files whose texts classify to the same proposed name, the dry run logs
that same new name for both files, while the live run — whose first rename
puts that name into the directory consulted by `ensureUniqueFilename` —
logs the "_2"-suffixed name for the second file: the two runs do not
compute the same rename decisions. -/
theorem processPass_dryRun_decisions_differ :
    (processPass true
      ["adp_1.pdf".toList, "adp_2.pdf".toList]
      [("adp_1.pdf".toList,
          some "Ausdruck der elektronischen Lohnsteuerbescheinigung für 2022".toList),
       ("adp_2.pdf".toList,
          some "Ausdruck der elektronischen Lohnsteuerbescheinigung für 2022".toList)]).2.1
    ≠ (processPass false
      ["adp_1.pdf".toList, "adp_2.pdf".toList]
      [("adp_1.pdf".toList,
          some "Ausdruck der elektronischen Lohnsteuerbescheinigung für 2022".toList),
       ("adp_2.pdf".toList,
          some "Ausdruck der elektronischen Lohnsteuerbescheinigung für 2022".toList)]).2.1 := by
  decide

/-- C8 amended: a dry run performs zero filesystem mutations — the
directory listing after the pass is the initial one — and it logs the same
rename decisions (same old and new name per file) as a live run over the
same initial state provided the classified files' proposed names are
pairwise distinct and not already present in the directory; without that
proviso the live run's earlier renames change the directory consulted by
`ensureUniqueFilename` and the decisions can differ. -/
theorem processPass_dryRun_amended (dir : List Str) (files : List (Str × Option Str)) :
    (processPass true dir files).1 = dir
    ∧ ((∀ q ∈ proposalsOf files, q ∉ dir) → (proposalsOf files).Nodup →
        (processPass true dir files).2.1 = (processPass false dir files).2.1) := by
  refine ⟨processPass_dry_dir files dir, ?_⟩
  intro h hn
  rw [processPass_dry_fresh files dir h, (processPass_live_fresh files dir h hn).1]

/-- Witness for the amended C8: for a single tax certificate whose proposed
name is fresh, the dry run leaves the directory untouched and logs the
same decision as the live run. -/
theorem processPass_dryRun_amended_witness :
    (processPass true ["adp_1.pdf".toList]
      [("adp_1.pdf".toList,
          some "Ausdruck der elektronischen Lohnsteuerbescheinigung für 2022".toList)]).1
      = ["adp_1.pdf".toList]
    ∧ (processPass true ["adp_1.pdf".toList]
      [("adp_1.pdf".toList,
          some "Ausdruck der elektronischen Lohnsteuerbescheinigung für 2022".toList)]).2.1
      = (processPass false ["adp_1.pdf".toList]
      [("adp_1.pdf".toList,
          some "Ausdruck der elektronischen Lohnsteuerbescheinigung für 2022".toList)]).2.1 := by
  have h := processPass_dryRun_amended
    ["adp_1.pdf".toList]
    [("adp_1.pdf".toList,
        some "Ausdruck der elektronischen Lohnsteuerbescheinigung für 2022".toList)]
  exact ⟨h.1, h.2 (by decide) (by decide)⟩

/-- C5: session bridging installs exactly the browser cookies whose name is
in the fixed allow-list: a cookie is in the bridged client's jar iff it was
enumerated from the browser and its name is one of the four essential
names; every other cookie is discarded. -/
theorem bridgedCookies_mem_iff (allCookies : List Cookie) (c : Cookie) :
    c ∈ bridgedCookies allCookies ↔
      c ∈ allCookies ∧ c.name ∈ essentialCookieNames := by
  simp only [bridgedCookies, List.mem_filter]
  constructor
  · rintro ⟨hmem, hc⟩
    exact ⟨hmem, List.elem_iff.mp hc⟩
  · rintro ⟨hmem, hc⟩
    exact ⟨hmem, List.elem_iff.mpr hc⟩

/-- Helper: one successful step of the bulk-download loop conses the
resolved link onto the result of the rest of the loop. -/
theorem downloadAllLinks_cons_ok
    (fetch : Str → Except Str Nat) (siteURL destDir l : Str) (rest : List Str)
    (i : Nat) (fs : List Str)
    (hl : fetch (resolveLink siteURL l) = .ok 200) :
    downloadAllLinks fetch siteURL destDir (l :: rest) i fs =
      (resolveLink siteURL l ::
          (downloadAllLinks fetch siteURL destDir rest (i + 1)
            (if destDir ++ '/' :: ordinalName (i + 1) ∈ fs then fs
              else (destDir ++ '/' :: ordinalName (i + 1)) :: fs)).1,
        (downloadAllLinks fetch siteURL destDir rest (i + 1)
            (if destDir ++ '/' :: ordinalName (i + 1) ∈ fs then fs
              else (destDir ++ '/' :: ordinalName (i + 1)) :: fs)).2.1,
        (downloadAllLinks fetch siteURL destDir rest (i + 1)
            (if destDir ++ '/' :: ordinalName (i + 1) ∈ fs then fs
              else (destDir ++ '/' :: ordinalName (i + 1)) :: fs)).2.2) := by
  rcases hpp : downloadAllLinks fetch siteURL destDir rest (i + 1)
      (if destDir ++ '/' :: ordinalName (i + 1) ∈ fs then fs
        else (destDir ++ '/' :: ordinalName (i + 1)) :: fs) with ⟨ds, fs3, e⟩
  simp [downloadAllLinks, downloadFile, hl, hpp]

/-- Helper: a batch whose prefix downloads succeed and whose next link
fails aborts at that link, having downloaded exactly the prefix. -/
theorem downloadAllLinks_abort_helper :
    ∀ (pre : List Str) (fetch : Str → Except Str Nat) (siteURL destDir : Str)
      (post : List Str) (bad : Str) (i : Nat) (fs : List Str),
      (∀ l ∈ pre, fetch (resolveLink siteURL l) = .ok 200) →
      (fetch (resolveLink siteURL bad) = .ok 200 → False) →
      (downloadAllLinks fetch siteURL destDir (pre ++ bad :: post) i fs).1
          = pre.map (resolveLink siteURL)
      ∧ ∃ err, (downloadAllLinks fetch siteURL destDir (pre ++ bad :: post) i fs).2.2
          = some (resolveLink siteURL bad, err) := by
  intro pre
  induction pre with
  | nil =>
    intro fetch siteURL destDir post bad i fs _ hbad
    cases hf : fetch (resolveLink siteURL bad) with
    | error e =>
      refine ⟨?_, DownloadErr.transport e, ?_⟩ <;>
        simp [downloadAllLinks, downloadFile, hf]
    | ok code =>
      have hne : ¬ code = 200 := fun hc => hbad (hc ▸ hf)
      refine ⟨?_, DownloadErr.badStatus code, ?_⟩ <;>
        simp [downloadAllLinks, downloadFile, hf, hne]
  | cons l rest ih =>
    intro fetch siteURL destDir post bad i fs hok hbad
    have hl : fetch (resolveLink siteURL l) = .ok 200 := hok l (by simp)
    have hrest : ∀ x ∈ rest, fetch (resolveLink siteURL x) = .ok 200 :=
      fun x hx => hok x (by simp [hx])
    have ihres := ih fetch siteURL destDir post bad (i + 1)
      (if destDir ++ '/' :: ordinalName (i + 1) ∈ fs then fs
        else (destDir ++ '/' :: ordinalName (i + 1)) :: fs) hrest hbad
    rw [List.cons_append,
      downloadAllLinks_cons_ok fetch siteURL destDir l (rest ++ bad :: post) i fs hl]
    exact ⟨by simp [ihres.1], ihres.2⟩

/-- Counterexample to C6 as stated: an absolute link carrying the "http://"
scheme is not fetched as-is — the loop's check is
`strings.HasPrefix(link, "https")`, so this absolute URL gets the portal
origin prepended instead. -/
theorem resolveLink_mangles_absolute_link :
    specAbsoluteLink "http://portal.example.com/AdpwAdpaWeb/DocDownload?doc=1".toList = true
    ∧ resolveLink "https://adpworld.adp.com".toList
        "http://portal.example.com/AdpwAdpaWeb/DocDownload?doc=1".toList
      ≠ "http://portal.example.com/AdpwAdpaWeb/DocDownload?doc=1".toList := by
  decide

/-- C6 amended: a link is fetched as-is exactly when it begins with
"https"; any other link — including an absolute "http://" link — has the
portal origin prepended.  The first link whose fetch yields a transport
error or a non-success HTTP status aborts the whole batch with an error
naming the resolved link; the links before it are downloaded in order and
no later link is downloaded. -/
theorem downloadAllLinks_first_failure
    (fetch : Str → Except Str Nat) (siteURL destDir : Str)
    (pre post : List Str) (bad : Str) (i : Nat) (fs : List Str)
    (hok : ∀ l ∈ pre, fetch (resolveLink siteURL l) = .ok 200)
    (hfail : (∃ e, fetch (resolveLink siteURL bad) = .error e)
      ∨ ∃ code, fetch (resolveLink siteURL bad) = .ok code ∧ (code < 200 ∨ 300 ≤ code)) :
    (downloadAllLinks fetch siteURL destDir (pre ++ bad :: post) i fs).1
        = pre.map (resolveLink siteURL)
    ∧ (∃ err, (downloadAllLinks fetch siteURL destDir (pre ++ bad :: post) i fs).2.2
        = some (resolveLink siteURL bad, err))
    ∧ ("https".toList.isPrefixOf bad = true → resolveLink siteURL bad = bad)
    ∧ ("https".toList.isPrefixOf bad = false →
        resolveLink siteURL bad = siteURL ++ bad) := by
  have hbad : fetch (resolveLink siteURL bad) = .ok 200 → False := by
    intro hc
    rcases hfail with ⟨e, he⟩ | ⟨code, hcode, hbound⟩
    · rw [he] at hc
      exact Except.noConfusion hc
    · rw [hcode] at hc
      have : code = 200 := by injection hc
      omega
  have habort := downloadAllLinks_abort_helper pre fetch siteURL destDir post bad i fs hok hbad
  refine ⟨habort.1, habort.2, ?_, ?_⟩
  · intro h
    unfold resolveLink
    rw [h]
    simp
  · intro h
    unfold resolveLink
    rw [h]
    simp

/-- Witness for the amended C6: with one good relative link and one bad
one, the loop downloads exactly the first (resolved against the portal
origin) and aborts naming the second. -/
theorem downloadAllLinks_first_failure_witness :
    (downloadAllLinks
      (fun u => if u = "https://adpworld.adp.com/AdpwAdpaWeb/DocDownload?doc=1".toList
        then Except.ok 200 else Except.error "connection refused".toList)
      "https://adpworld.adp.com".toList "docs".toList
      (["/AdpwAdpaWeb/DocDownload?doc=1".toList]
        ++ "/AdpwAdpaWeb/DocDownload?doc=2".toList :: []) 0 []).1
    = ["/AdpwAdpaWeb/DocDownload?doc=1".toList].map
        (resolveLink "https://adpworld.adp.com".toList) := by
  exact (downloadAllLinks_first_failure
    (fun u => if u = "https://adpworld.adp.com/AdpwAdpaWeb/DocDownload?doc=1".toList
      then Except.ok 200 else Except.error "connection refused".toList)
    "https://adpworld.adp.com".toList "docs".toList
    ["/AdpwAdpaWeb/DocDownload?doc=1".toList] []
    "/AdpwAdpaWeb/DocDownload?doc=2".toList 0 []
    (by intro l hl; simp only [List.mem_singleton] at hl; subst hl; rfl)
    (Or.inl ⟨"connection refused".toList, by rfl⟩)).1

/-- Helper: the polling loop never returns an evaluation error, by
induction on the remaining time budget. -/
theorem waitFor_no_evalError :
    ∀ (n : Nat) (evalCond : Nat → Except Str Bool) (timeout t : Nat),
      timeout - t ≤ n → ∀ m, waitFor evalCond timeout t ≠ WaitResult.evalError m := by
  intro n
  induction n with
  | zero =>
    intro evalCond timeout t hle m
    have hts : timeout ≤ t := by omega
    unfold waitFor
    rw [dif_pos hts]
    intro hcontra
    exact WaitResult.noConfusion hcontra
  | succ n ih =>
    intro evalCond timeout t hle m
    by_cases hts : timeout ≤ t
    · unfold waitFor
      rw [dif_pos hts]
      intro hcontra
      exact WaitResult.noConfusion hcontra
    · unfold waitFor
      rw [dif_neg hts]
      cases hev : evalCond t with
      | error e =>
        by_cases hd : hasSub deadlineMsg e
        · simp [hd]
        · simp only [hd, if_false, Bool.false_eq_true]
          exact ih evalCond timeout (t + 500) (by omega) m
      | ok b =>
        cases b
        · exact ih evalCond timeout (t + 500) (by omega) m
        · simp

/-- C7: characterisation of the polling loop shared by waitForElement and
waitForText: once the deadline has elapsed it returns TimedOut; within the
deadline, a holding condition returns success, a failing condition retries
after the fixed 500ms interval, an evaluation error carrying the
deadline-exceeded marker returns TimedOut, any other evaluation error is
swallowed and retried after the same 500ms interval — and no evaluation
error is ever returned by the wait. -/
theorem waitFor_polling_spec (evalCond : Nat → Except Str Bool) (timeout t : Nat) :
    (timeout ≤ t → waitFor evalCond timeout t = WaitResult.timedOut)
    ∧ (t < timeout → ∀ e, evalCond t = .error e → hasSub deadlineMsg e = true →
        waitFor evalCond timeout t = WaitResult.timedOut)
    ∧ (t < timeout → evalCond t = .ok true →
        waitFor evalCond timeout t = WaitResult.success)
    ∧ (t < timeout → evalCond t = .ok false →
        waitFor evalCond timeout t = waitFor evalCond timeout (t + 500))
    ∧ (t < timeout → ∀ e, evalCond t = .error e → hasSub deadlineMsg e = false →
        waitFor evalCond timeout t = waitFor evalCond timeout (t + 500))
    ∧ (∀ m, waitFor evalCond timeout t ≠ WaitResult.evalError m) := by
  refine ⟨?_, ?_, ?_, ?_, ?_, ?_⟩
  · intro h
    unfold waitFor
    rw [dif_pos h]
  · intro h e he hd
    unfold waitFor
    rw [dif_neg (by omega), he]
    simp [hd]
  · intro h he
    unfold waitFor
    rw [dif_neg (by omega), he]
  · intro h he
    conv_lhs => unfold waitFor
    rw [dif_neg (by omega), he]
  · intro h e he hd
    conv_lhs => unfold waitFor
    rw [dif_neg (by omega), he]
    simp [hd]
  · exact waitFor_no_evalError (timeout - t) evalCond timeout t le_rfl

/-- Witness for C7: a condition that holds immediately succeeds within a
30s deadline. -/
theorem waitFor_polling_spec_witness :
    waitFor (fun _ => Except.ok true) 30000 0 = WaitResult.success :=
  (waitFor_polling_spec (fun _ => Except.ok true) 30000 0).2.2.1 (by omega) rfl

/-- C10: `downloadFile` creates the destination file before issuing the
GET — the destination is in the directory listing whatever the response —
so whenever the download fails, with a transport error or a non-OK HTTP
status, the file at the destination path has nonetheless been created and
remains on disk. -/
theorem downloadFile_creates_before_fetch
    (fs : List Str) (resp : Except Str Nat) (dest : Str) :
    dest ∈ (downloadFile fs resp dest).1
    ∧ (∀ err, (downloadFile fs resp dest).2 = some err →
        dest ∈ (downloadFile fs resp dest).1) := by
  have hin : dest ∈ (if dest ∈ fs then fs else dest :: fs) := by
    by_cases h : dest ∈ fs
    · simp [h]
    · simp [h]
  have hfst : dest ∈ (downloadFile fs resp dest).1 := by
    cases resp with
    | error e => simpa [downloadFile] using hin
    | ok code =>
      by_cases hc : code = 200
      · simpa [downloadFile, hc] using hin
      · simpa [downloadFile, hc] using hin
  exact ⟨hfst, fun _ _ => hfst⟩

/-- Witness for C10: a transport failure still leaves the just-created
ordinal file in the (initially empty) directory. -/
theorem downloadFile_creates_before_fetch_witness :
    "adp_1.pdf".toList ∈
      (downloadFile [] (Except.error "connection refused".toList) "adp_1.pdf".toList).1 :=
  (downloadFile_creates_before_fetch []
    (Except.error "connection refused".toList) "adp_1.pdf".toList).1
